import Mathlib

/-!
Shallow embedding of the pdf-summarizer-ai client
(src/src/components/PDFSummarizer.tsx, src/src/utils/textUtils.ts).

Text is modelled as `List Char` (the character sequence of a JS string).
Stateful React code is modelled as explicit state passing: a component
state record, an environment record for the outside world (local storage,
the PDF document, OCR, the providers), and a trace of observable effects
(toasts, network calls, page renders).
-/

/-- JS strings are modelled by their character lists. -/
abbrev Str := List Char

/-- Whitespace recognized by JavaScript `String.prototype.trim`
(ASCII whitespace plus NBSP, BOM and the Unicode line separators;
only these occur in the texts under study). -/
def isJsWS (c : Char) : Bool :=
  c = ' ' || c = '\t' || c = '\n' || c = '\r' || c = '\x0b' || c = '\x0c' ||
  c.val = 0xa0 || c.val = 0xfeff || c.val = 0x2028 || c.val = 0x2029

/-- Remove trailing JS whitespace. -/
def trimEnd (s : Str) : Str :=
  (s.reverse.dropWhile isJsWS).reverse

/-- JavaScript `s.trim()`. -/
def trim (s : Str) : Str :=
  trimEnd (s.dropWhile isJsWS)

/-- JavaScript `s.split('\n')` on character lists. -/
def splitNl : Str → List Str
  | [] => [[]]
  | c :: cs =>
    if c = '\n' then [] :: splitNl cs
    else
      match splitNl cs with
      | [] => [[c]]
      | h :: t => (c :: h) :: t

/-- JavaScript `parts.join('\n\n')`: intercalation with a blank line. -/
def joinBlank : List Str → Str
  | [] => []
  | [a] => a
  | a :: b :: t => a ++ '\n' :: '\n' :: joinBlank (b :: t)

/-- JavaScript `parts.join(' ')`. -/
def joinSpace : List Str → Str
  | [] => []
  | [a] => a
  | a :: b :: t => a ++ ' ' :: joinSpace (b :: t)

/-- `dropLit pat s = some r` iff `s = pat ++ r` (literal matching). -/
def dropLit : Str → Str → Option Str
  | [], s => some s
  | _ :: _, [] => none
  | p :: ps, c :: cs => if c = p then dropLit ps cs else none

/-- Matcher for a regex of shape `<litL>\d+:<rtail>` anchored at the front
of `s` (`litL` a literal, `\d+` greedy, then a colon and the literal
`rtail`): on success returns the rest of `s` after the match. -/
def matchPat (litL rtail : Str) (s : Str) : Option Str :=
  match dropLit litL s with
  | none => none
  | some r1 =>
    let ds := r1.takeWhile Char.isDigit
    if ds.isEmpty then none
    else dropLit (':' :: rtail) (r1.dropWhile Char.isDigit)

/-- Matcher for the regex `\*\*Paragraf \d+:\*\*` anchored at the front of `s`. -/
def matchBold (s : Str) : Option Str :=
  matchPat "**Paragraf ".data "**".data s

/-- Matcher for the regex `Paragraf \d+:` anchored at the front of `s`. -/
def matchPlain (s : Str) : Option Str :=
  matchPat "Paragraf ".data [] s

/-- One global-replace pass deleting every occurrence found by `m`,
scanning left to right without rescanning the produced text, exactly as
JavaScript `s.replace(re, '')` with a global regex.  `fuel` bounds the
recursion; it is set to `s.length` by the wrappers. -/
def stripWith (m : Str → Option Str) : Nat → Str → Str
  | _, [] => []
  | 0, s => s
  | fuel + 1, c :: cs =>
    match m (c :: cs) with
    | some r => stripWith m fuel r
    | none => c :: stripWith m fuel cs

/-- `text.replace(/\*\*Paragraf \d+:\*\*/g, '')`. -/
def stripBold (s : Str) : Str := stripWith matchBold s.length s

/-- `text.replace(/Paragraf \d+:/g, '')`. -/
def stripPlain (s : Str) : Str := stripWith matchPlain s.length s

/-- The tail of the `formatSummary` chain: `.split('\n')`, `.map(trim)`,
`.filter(length > 0)`, `.join('\n\n')`. -/
def reflow (text : Str) : Str :=
  joinBlank
    (((splitNl text).map trim).filter (fun paragraph => decide (0 < paragraph.length)))

/-- `formatSummary` from src/src/utils/textUtils.ts: strip the two
boilerplate patterns, split on line breaks, trim each segment, drop empty
segments, and re-join with a blank line. -/
def formatSummary (text : Str) : Str :=
  reflow (stripPlain (stripBold text))

/-- Decimal rendering of a page count (JS template interpolation of a number). -/
def natStr (n : Nat) : Str := (Nat.repr n).data

/-- One entry of the page-selection list. -/
structure PageSelection where
  pageNum : Nat
  selected : Bool
deriving DecidableEq

/-- Component state of `PDFSummarizer` (the four `useState` cells). -/
structure AppState where
  loading : Bool
  summary : Str
  totalPages : Nat
  pageSelections : List PageSelection
deriving DecidableEq

/-- Observable effects of one run: user-visible toasts, network calls to a
summarization provider, page rasterization and OCR invocations. -/
inductive Eff where
  | toast (title desc : Str)
  | netCall (provider : Str) (prompt : Str)
  | renderPage (pageNum : Nat) (scale : ℚ)
  | ocrRun (pageNum : Nat)
deriving DecidableEq

/-- Whether an effect is a network call to a summarization provider. -/
def Eff.isNetCall : Eff → Bool
  | .netCall _ _ => true
  | _ => false

/-- Duck-typed JS error object as read by `handleApiError`: `status`,
`body` (with, when present, the parsed `error.message` inside it), `message`. -/
structure JsErr where
  status : Option Nat
  body : Option (Option Str)
  message : Option Str
deriving DecidableEq

/-- A `fetch` response as used by the OpenAI branch: `ok`, the HTTP status,
`statusText`, and the summary content at `data.choices[0].message.content`. -/
structure FetchResp where
  ok : Bool
  status : Nat
  statusText : Str
  content : Str
deriving DecidableEq

/-- The outside world one `summarizePDF` run interacts with: local storage,
the parsed PDF document, the OCR engine and the two providers. -/
structure Env where
  store : Str → Option Str
  docLoad : Except JsErr Unit
  pageItems : Nat → List Str
  ocr : Nat → Except JsErr Str
  geminiResult : Except JsErr Str
  fetchResult : Except JsErr FetchResp

/-- JavaScript `x || d` for a nullable string `x` (absent and empty are falsy). -/
def jsOr (o : Option Str) (d : Str) : Str :=
  match o with
  | none => d
  | some s => if s.isEmpty then d else s

/-- JavaScript falsiness of the stored API key (`!apiKey`). -/
def keyFalsy (o : Option Str) : Bool :=
  match o with
  | none => true
  | some s => s.isEmpty

/-- `initializePDF`'s selection initialization:
`Array.from({length: numPages}, (_, i) => ({pageNum: i + 1, selected: false}))`. -/
def pageSelectionsInit (numPages : Nat) : List PageSelection :=
  (List.range numPages).map (fun i => { pageNum := i + 1, selected := false })

/-- `initializePDF` on a successfully parsed document with `numPages` pages. -/
def initializePDF (numPages : Nat) (st : AppState) : AppState :=
  { st with totalPages := numPages, pageSelections := pageSelectionsInit numPages }

/-- The per-entry update of `togglePageSelection`'s `map` callback. -/
def toggleEntry (pageNum : Nat) (page : PageSelection) : PageSelection :=
  if page.pageNum = pageNum then { page with selected := !page.selected } else page

/-- `togglePageSelection`. -/
def togglePageSelection (pageNum : Nat) (prev : List PageSelection) : List PageSelection :=
  prev.map (toggleEntry pageNum)

/-- `handleApiError`: a 429 status gets the rate-limit toast, anything else
the generic toast with the most specific extractable message. -/
def handleApiError (error : JsErr) : List Eff :=
  if error.status = some 429 then
    [.toast "API Quota Exceeded".data
      "You've reached the API rate limit. Please try again after a few minutes or use a different API key.".data]
  else
    [.toast "Error".data
      (jsOr (match error.body with | some m => m | none => error.message)
        "Failed to summarize PDF. Please try again.".data)]

/-- Page-text acquisition for one selected page (lines 112-133 of
`PDFSummarizer.tsx`): join the text-layer fragments with single spaces; if
that is empty after trimming, render the page at scale 2.0 to a canvas and
run OCR on it, using the OCR text instead. -/
def acquirePageText (env : Env) (pageNum : Nat) : Except JsErr (Str × List Eff) :=
  let pageText := joinSpace (env.pageItems pageNum)
  if (trim pageText).isEmpty then
    match env.ocr pageNum with
    | .error e => .error e
    | .ok t => .ok (t, [.renderPage pageNum 2, .ocrRun pageNum])
  else
    .ok (pageText, [])

/-- The `Promise.all` over the selected pages: every page's text (tagged
with its page number) plus the accumulated render/OCR effects; the first
failure rejects the whole batch. -/
def collectPageTexts (env : Env) : List PageSelection → Except JsErr (List (Nat × Str) × List Eff)
  | [] => .ok ([], [])
  | s :: rest =>
    match acquirePageText env s.pageNum with
    | .error e => .error e
    | .ok (t, effs) =>
      match collectPageTexts env rest with
      | .error e => .error e
      | .ok (ts, effs') => .ok ((s.pageNum, t) :: ts, effs ++ effs')

/-- The joint prompt of `summarizePDF` (lines 137-143): the contextual
header (`contextPrompt`) followed by the page texts, each prefixed
`Page <n>:` and a newline, joined by blank lines. -/
def buildJointPrompt (allPageTexts : List (Nat × Str)) (instructions : Str) : Str :=
  let k := allPageTexts.length
  let contextPrompt :=
    "Please provide a coherent summary of the following ".data ++
    (if 1 < k then "pages".data else "page".data) ++
    " from an article. ".data ++
    (if instructions.isEmpty then [] else
      "Additional instructions: ".data ++ instructions ++ "\n\n".data) ++
    "\n\nThe content is from ".data ++ natStr k ++ " page".data ++
    (if 1 < k then "s".data else []) ++
    " of a document. Please analyze the content, maintain the logical flow between pages, and provide a comprehensive summary that captures the main ideas and their relationships.\n\n".data
  let pageTexts :=
    joinBlank (allPageTexts.map (fun pt => "Page ".data ++ natStr pt.1 ++ ":\n".data ++ pt.2))
  contextPrompt ++ pageTexts

/-- `summarizePDF` as a state transition with an effect trace, transcribing
lines 79-196 of `PDFSummarizer.tsx`.  The `finally` clause makes `loading`
`false` in every terminating path past the selection guard. -/
def summarizePDF (st : AppState) (instructions : Str) (env : Env) : AppState × List Eff :=
  let selectedPages := st.pageSelections.filter (fun page => page.selected)
  if selectedPages.length = 0 then
    (st, [.toast "No Pages Selected".data "Please select at least one page to summarize".data])
  else
    match env.docLoad with
    | .error e => ({ st with loading := false }, handleApiError e)
    | .ok _ =>
      let provider := jsOr (env.store "SELECTED_PROVIDER".data) "gemini".data
      let apiKey := env.store (provider.map Char.toUpper ++ "_API_KEY".data)
      if keyFalsy apiKey then
        ({ st with loading := false },
         [.toast "No API Key Found".data
           ("Please set your ".data ++
            (if provider = "gemini".data then "Gemini".data else "OpenAI".data) ++
            " API key in the settings".data)])
      else
        match collectPageTexts env selectedPages with
        | .error e => ({ st with loading := false }, handleApiError e)
        | .ok (allPageTexts, extractEffs) =>
          let prompt := buildJointPrompt allPageTexts instructions
          if provider = "gemini".data then
            match env.geminiResult with
            | .error e =>
              ({ st with loading := false },
               extractEffs ++ .netCall provider prompt :: handleApiError e)
            | .ok raw =>
              ({ st with loading := false, summary := formatSummary raw },
               extractEffs ++ [.netCall provider prompt,
                 .toast "Success".data "Selected pages have been summarized!".data])
          else
            match env.fetchResult with
            | .error e =>
              ({ st with loading := false },
               extractEffs ++ .netCall provider prompt :: handleApiError e)
            | .ok resp =>
              if resp.ok then
                ({ st with loading := false, summary := formatSummary resp.content },
                 extractEffs ++ [.netCall provider prompt,
                   .toast "Success".data "Selected pages have been summarized!".data])
              else
                ({ st with loading := false },
                 extractEffs ++ .netCall provider prompt ::
                   handleApiError ⟨none, none, some ("OpenAI API error: ".data ++ resp.statusText)⟩)

/-- Scanner: some non-empty suffix of `s` starts with a match of `f`. -/
def hasMatchFrom (f : Str → Option Str) : Str → Bool
  | [] => false
  | c :: cs => (f (c :: cs)).isSome || hasMatchFrom f cs

/-- Scanner: some suffix of `s` starts with a `Paragraf <digits>:` match. -/
def hasPlainFrom (s : Str) : Bool := hasMatchFrom matchPlain s

/-- Scanner: some suffix of `s` starts with a `**Paragraf <digits>:**` match. -/
def hasBoldFrom (s : Str) : Bool := hasMatchFrom matchBold s

/-- `s` contains an occurrence of either boilerplate pattern. -/
def hasMarkerB (s : Str) : Bool := hasBoldFrom s || hasPlainFrom s

/-- A word matching the regex `<litL>\d+:<rtail>`. -/
def PatMark (litL rtail : Str) (m : Str) : Prop :=
  ∃ ds : Str, ds ≠ [] ∧ (∀ c ∈ ds, c.isDigit) ∧ m = litL ++ ds ++ ':' :: rtail

/-- A word matching the regex `Paragraf \d+:`. -/
def PlainMark (m : Str) : Prop :=
  PatMark "Paragraf ".data [] m

/-- A word matching the regex `\*\*Paragraf \d+:\*\*`. -/
def BoldMark (m : Str) : Prop :=
  PatMark "**Paragraf ".data "**".data m

/-- `s` has a substring matching one of the boilerplate patterns. -/
def HasMark (s : Str) : Prop :=
  ∃ m, (PlainMark m ∨ BoldMark m) ∧ m <:+: s

/-- The joint prompt as the claim words it: the plain summarization
template with the page texts each prefixed `Page <n>: ` and joined by
blank lines.  This follows the spec text, not the source. -/
def jointPromptClaimed (allPageTexts : List (Nat × Str)) (instructions : Str) : Str :=
  "Please summarize the following text. ".data ++
  (if instructions.isEmpty then [] else "Additional instructions: ".data ++ instructions) ++
  "\n\nText to summarize: ".data ++
  List.intercalate "\n\n".data
    (allPageTexts.map (fun pt => "Page ".data ++ natStr pt.1 ++ ": ".data ++ pt.2))

/-- The contextual header the code actually sends, stated as a closed
template over the page count and the instructions.  This follows the
amended spec wording. -/
def jointHeaderSpec (k : Nat) (instructions : Str) : Str :=
  "Please provide a coherent summary of the following ".data ++
  (if 1 < k then "pages".data else "page".data) ++
  " from an article. ".data ++
  (if instructions.isEmpty then [] else
    "Additional instructions: ".data ++ instructions ++ "\n\n".data) ++
  "\n\nThe content is from ".data ++ natStr k ++ " page".data ++
  (if 1 < k then "s".data else []) ++
  " of a document. Please analyze the content, maintain the logical flow between pages, and provide a comprehensive summary that captures the main ideas and their relationships.\n\n".data

/-- The joint prompt as the amended claim words it: the contextual header
followed by the page texts, each prefixed `Page <n>:` plus a line break,
intercalated with blank-line delimiters. -/
def jointPromptSpec (allPageTexts : List (Nat × Str)) (instructions : Str) : Str :=
  jointHeaderSpec allPageTexts.length instructions ++
  List.intercalate "\n\n".data
    (allPageTexts.map (fun pt => "Page ".data ++ natStr pt.1 ++ ":\n".data ++ pt.2))

/-- A loaded three-page document state with pages 1 and 3 selected. -/
def stSel : AppState :=
  ⟨false, [], 3, [⟨1, true⟩, ⟨2, false⟩, ⟨3, true⟩]⟩

/-- A loaded three-page document state with no page selected. -/
def stNone : AppState :=
  ⟨false, "old".data, 3, [⟨1, false⟩, ⟨2, false⟩, ⟨3, false⟩]⟩

/-- Environment: Gemini selected implicitly, key present, pages 1 and 3
carry the text layers "Hello" and "World". -/
def envGem : Env :=
  ⟨fun k => if k = "GEMINI_API_KEY".data then some "k1".data else none,
   .ok (),
   fun n => if n = 1 then ["Hello".data] else if n = 3 then ["World".data] else [],
   fun _ => .ok "ocr text".data,
   .ok "**Paragraf 1:** Hi there".data,
   .ok ⟨true, 200, "OK".data, []⟩⟩

/-- Environment with an empty local storage: no provider, no API key. -/
def envNoKey : Env :=
  ⟨fun _ => none, .ok (),
   fun n => if n = 1 then ["Hello".data] else if n = 3 then ["World".data] else [],
   fun _ => .ok "ocr text".data, .ok [], .ok ⟨true, 200, "OK".data, []⟩⟩

/-- Environment: OpenAI selected with a key, and the chat-completions call
answers HTTP 429 (quota exceeded). -/
def envOpenai429 : Env :=
  ⟨fun k =>
     if k = "SELECTED_PROVIDER".data then some "openai".data
     else if k = "OPENAI_API_KEY".data then some "k2".data else none,
   .ok (),
   fun n => if n = 1 then ["Hello".data] else if n = 3 then ["World".data] else [],
   fun _ => .ok "ocr text".data, .ok [],
   .ok ⟨false, 429, "Too Many Requests".data, []⟩⟩

/-- Environment where page 2 has an empty text layer and OCR answers. -/
def envOcr : Env :=
  ⟨fun k => if k = "GEMINI_API_KEY".data then some "k1".data else none,
   .ok (),
   fun n => if n = 1 then ["Hello".data, "there".data] else [],
   fun n => if n = 2 then .ok "ocr text".data else .ok [],
   .ok "fine".data, .ok ⟨true, 200, "OK".data, []⟩⟩

/-- Interleaving of segments with the empty lines a blank-line join creates. -/
def interleave : List Str → List Str
  | [] => []
  | [a] => [a]
  | a :: b :: t => a :: [] :: interleave (b :: t)

theorem joinBlank_eq_intercalate (L : List Str) :
    joinBlank L = List.intercalate "\n\n".data L := by
  match L with
  | [] => rfl
  | [a] => simp [joinBlank, List.intercalate]
  | a :: b :: t =>
    have ih := joinBlank_eq_intercalate (b :: t)
    simp only [joinBlank, ih, List.intercalate, List.intersperse]
    simp

/-- C7: initializing the selections of an `n`-page document yields exactly
`n` entries, with page numbers exactly `1..n` in order, no duplicates, and
every entry unselected. -/
theorem pageSelectionsInit_spec (n : Nat) :
    (pageSelectionsInit n).length = n ∧
    (pageSelectionsInit n).map PageSelection.pageNum = List.range' 1 n ∧
    ((pageSelectionsInit n).map PageSelection.pageNum).Nodup ∧
    (pageSelectionsInit n).map PageSelection.selected = List.replicate n false := by
  have hmap : (pageSelectionsInit n).map PageSelection.pageNum = List.range' 1 n := by
    simp [pageSelectionsInit, List.map_map, Function.comp, List.range'_eq_map_range]
    exact fun a _ => Nat.add_comm a 1
  refine ⟨by simp [pageSelectionsInit], hmap, by rw [hmap]; exact List.nodup_range' 1 n, ?_⟩
  simp only [pageSelectionsInit, List.map_map]
  have hsel : (PageSelection.selected ∘ fun i =>
      ({ pageNum := i + 1, selected := false } : PageSelection)) = fun _ => false := rfl
  rw [hsel, List.map_const', List.length_range]

/-- C8: toggling a page twice restores the selection list, and the toggle
callback leaves any entry with a different page number unchanged. -/
theorem togglePageSelection_spec (p : Nat) :
    (∀ l : List PageSelection, togglePageSelection p (togglePageSelection p l) = l) ∧
    (∀ page : PageSelection, page.pageNum ≠ p → toggleEntry p page = page) := by
  have hfix : ∀ page : PageSelection, page.pageNum ≠ p → toggleEntry p page = page := by
    intro page h
    simp [toggleEntry, h]
  refine ⟨?_, hfix⟩
  intro l
  have hinv : ∀ page : PageSelection, toggleEntry p (toggleEntry p page) = page := by
    intro page
    obtain ⟨pn, sel⟩ := page
    by_cases h : pn = p
    · subst h
      simp [toggleEntry]
    · simp [toggleEntry, h]
  simp [togglePageSelection, List.map_map, Function.comp_def, hinv]

theorem togglePageSelection_witness :
    togglePageSelection 2 (togglePageSelection 2 stSel.pageSelections) = stSel.pageSelections ∧
    toggleEntry 2 ⟨1, true⟩ = ⟨1, true⟩ :=
  ⟨(togglePageSelection_spec 2).1 stSel.pageSelections,
   (togglePageSelection_spec 2).2 ⟨1, true⟩ (by decide)⟩

/-- C2: with no page selected, `summarizePDF` only emits the validation
toast — no network call — and leaves the state (selections, page count,
summary, loading flag) unchanged. -/
theorem summarize_no_selection (st : AppState) (instructions : Str) (env : Env)
    (h : (st.pageSelections.filter (fun page => page.selected)).length = 0) :
    summarizePDF st instructions env =
      (st, [.toast "No Pages Selected".data "Please select at least one page to summarize".data]) ∧
    ∀ e ∈ (summarizePDF st instructions env).2, e.isNetCall = false := by
  have e : summarizePDF st instructions env =
      (st, [.toast "No Pages Selected".data "Please select at least one page to summarize".data]) := by
    unfold summarizePDF
    simp [h]
  refine ⟨e, ?_⟩
  rw [e]
  intro x hx
  simp only [List.mem_singleton] at hx
  subst hx
  rfl

theorem summarize_no_selection_witness :
    summarizePDF stNone [] envGem =
      (stNone, [.toast "No Pages Selected".data "Please select at least one page to summarize".data]) ∧
    ∀ e ∈ (summarizePDF stNone [] envGem).2, e.isNetCall = false :=
  summarize_no_selection stNone [] envGem (by decide)

/-- C3: with a non-empty selection and a loaded document, a falsy stored
API key for the selected provider makes `summarizePDF` emit only the
"No API Key Found" toast and return — no network call, selections, page
count and summary untouched (only the loading flag is written back). -/
theorem summarize_no_key (st : AppState) (instructions : Str) (env : Env)
    (hsel : (st.pageSelections.filter (fun page => page.selected)).length ≠ 0)
    (hdoc : env.docLoad = .ok ())
    (hkey : keyFalsy (env.store
      ((jsOr (env.store "SELECTED_PROVIDER".data) "gemini".data).map Char.toUpper
        ++ "_API_KEY".data)) = true) :
    summarizePDF st instructions env =
      ({ st with loading := false },
       [.toast "No API Key Found".data
         ("Please set your ".data ++
          (if jsOr (env.store "SELECTED_PROVIDER".data) "gemini".data = "gemini".data
            then "Gemini".data else "OpenAI".data) ++
          " API key in the settings".data)]) ∧
    ∀ e ∈ (summarizePDF st instructions env).2, e.isNetCall = false := by
  have e : summarizePDF st instructions env =
      ({ st with loading := false },
       [.toast "No API Key Found".data
         ("Please set your ".data ++
          (if jsOr (env.store "SELECTED_PROVIDER".data) "gemini".data = "gemini".data
            then "Gemini".data else "OpenAI".data) ++
          " API key in the settings".data)]) := by
    unfold summarizePDF
    rw [if_neg hsel, hdoc]
    simp only [hkey, if_true]
  refine ⟨e, ?_⟩
  rw [e]
  intro x hx
  simp only [List.mem_singleton] at hx
  subst hx
  rfl

theorem summarize_no_key_witness :
    summarizePDF stSel [] envNoKey =
      ({ stSel with loading := false },
       [.toast "No API Key Found".data "Please set your Gemini API key in the settings".data]) ∧
    ∀ e ∈ (summarizePDF stSel [] envNoKey).2, e.isNetCall = false := by
  have h := summarize_no_key stSel [] envNoKey (by decide) rfl (by decide)
  refine ⟨?_, h.2⟩
  rw [h.1]
  decide

/-- C9: page-text acquisition returns the space-joined text layer when it
is non-empty after trimming, and otherwise renders the page at the fixed
2.0 upscale, runs OCR on the raster, and returns the OCR text instead. -/
theorem acquirePageText_spec (env : Env) (n : Nat) :
    ((trim (joinSpace (env.pageItems n))).isEmpty = false →
      acquirePageText env n = .ok (joinSpace (env.pageItems n), [])) ∧
    ((trim (joinSpace (env.pageItems n))).isEmpty = true →
      ∀ t, env.ocr n = .ok t →
        acquirePageText env n = .ok (t, [.renderPage n 2, .ocrRun n])) := by
  constructor
  · intro h
    unfold acquirePageText
    simp [h]
  · intro h t hocr
    unfold acquirePageText
    simp [h, hocr]

theorem acquirePageText_witness :
    acquirePageText envOcr 1 = .ok ("Hello there".data, []) ∧
    acquirePageText envOcr 2 = .ok ("ocr text".data, [.renderPage 2 2, .ocrRun 2]) := by
  constructor
  · have h := (acquirePageText_spec envOcr 1).1 (by decide)
    rw [h]
    exact rfl
  · exact (acquirePageText_spec envOcr 2).2 (by decide) "ocr text".data rfl

/-- C1 counterexample: for the spec's own example (pages 1 and 3 selected,
text layers "Hello" and "World", empty instructions) the prompt the code
builds is not the claimed plain template, whose value the second conjunct
pins down exactly as the claim words it. -/
theorem jointPrompt_counterexample :
    buildJointPrompt [(1, "Hello".data), (3, "World".data)] [] ≠
      jointPromptClaimed [(1, "Hello".data), (3, "World".data)] [] ∧
    jointPromptClaimed [(1, "Hello".data), (3, "World".data)] [] =
      "Please summarize the following text. \n\nText to summarize: Page 1: Hello\n\nPage 3: World".data := by
  constructor
  · decide
  · decide

set_option maxRecDepth 8192 in
/-- C1 amended: the joint prompt is the contextual template — a header
noting the page count and asking for cross-page coherence (with the
optional instructions sentence inside it) — followed by the page texts,
each prefixed `Page <n>:` plus a line break, joined by blank lines; on
the spec's example the prompt is exactly the string below. -/
theorem jointPrompt_amended :
    (∀ (allPageTexts : List (Nat × Str)) (instructions : Str),
      buildJointPrompt allPageTexts instructions = jointPromptSpec allPageTexts instructions) ∧
    buildJointPrompt [(1, "Hello".data), (3, "World".data)] [] =
      "Please provide a coherent summary of the following pages from an article. \n\nThe content is from 2 pages of a document. Please analyze the content, maintain the logical flow between pages, and provide a comprehensive summary that captures the main ideas and their relationships.\n\nPage 1:\nHello\n\nPage 3:\nWorld".data := by
  constructor
  · intro allPageTexts instructions
    unfold buildJointPrompt jointPromptSpec jointHeaderSpec
    rw [joinBlank_eq_intercalate]
  · decide

/-- C4: `handleApiError` does classify a carried 429 status as the
rate-limit toast (first conjunct), but the OpenAI branch wraps a 429
response in a plain `Error` without a `status` field, so the run emits the
generic toast carrying the status text and never the rate-limit toast
(remaining conjuncts evaluate the code on that failing input). -/
theorem openai429_gets_generic_toast :
    handleApiError ⟨some 429, none, none⟩ =
      [.toast "API Quota Exceeded".data
        "You've reached the API rate limit. Please try again after a few minutes or use a different API key.".data] ∧
    (Eff.toast "Error".data "OpenAI API error: Too Many Requests".data)
      ∈ (summarizePDF stSel [] envOpenai429).2 ∧
    (Eff.toast "API Quota Exceeded".data
        "You've reached the API rate limit. Please try again after a few minutes or use a different API key.".data)
      ∉ (summarizePDF stSel [] envOpenai429).2 := by
  refine ⟨by decide, ?_, ?_⟩
  · decide
  · decide

/-- C10: whatever the environment does — validation rejection, document
failure, missing key, extraction failure, provider success or failure —
`summarizePDF` never writes the page selections or the total page count. -/
theorem summarize_frame (st : AppState) (instructions : Str) (env : Env) :
    (summarizePDF st instructions env).1.pageSelections = st.pageSelections ∧
    (summarizePDF st instructions env).1.totalPages = st.totalPages := by
  unfold summarizePDF
  dsimp only
  split
  · exact ⟨rfl, rfl⟩
  · split
    · exact ⟨rfl, rfl⟩
    · split
      · exact ⟨rfl, rfl⟩
      · split
        · exact ⟨rfl, rfl⟩
        · split
          · split
            · exact ⟨rfl, rfl⟩
            · exact ⟨rfl, rfl⟩
          · split
            · exact ⟨rfl, rfl⟩
            · split
              · exact ⟨rfl, rfl⟩
              · exact ⟨rfl, rfl⟩

theorem dropLit_sound : ∀ (p s r : Str), dropLit p s = some r → s = p ++ r := by
  intro p
  induction p with
  | nil => intro s r h; simpa [dropLit] using Option.some_injective _ h
  | cons c cs ih =>
    intro s r h
    match s with
    | [] => simp [dropLit] at h
    | d :: ds =>
      simp only [dropLit] at h
      by_cases hd : d = c
      · subst hd
        simp only [if_pos rfl] at h
        simpa using ih ds r h
      · simp [hd] at h

theorem dropLit_self : ∀ (p r : Str), dropLit p (p ++ r) = some r := by
  intro p
  induction p with
  | nil => intro r; rfl
  | cons c cs ih => intro r; simp [dropLit, ih]

theorem takeWhile_app_all (p : Char → Bool) :
    ∀ (ds t : Str), (∀ c ∈ ds, p c = true) → (ds ++ t).takeWhile p = ds ++ t.takeWhile p := by
  intro ds
  induction ds with
  | nil => intro t _; rfl
  | cons c cs ih =>
    intro t h
    have hc : p c = true := h c (by simp)
    simp [List.takeWhile_cons, hc, ih t (fun d hd => h d (by simp [hd]))]

theorem dropWhile_app_all (p : Char → Bool) :
    ∀ (ds t : Str), (∀ c ∈ ds, p c = true) → (ds ++ t).dropWhile p = t.dropWhile p := by
  intro ds
  induction ds with
  | nil => intro t _; rfl
  | cons c cs ih =>
    intro t h
    have hc : p c = true := h c (by simp)
    simp [List.dropWhile_cons, hc, ih t (fun d hd => h d (by simp [hd]))]

theorem mem_takeWhile_pred (p : Char → Bool) :
    ∀ (l : Str) (c : Char), c ∈ l.takeWhile p → p c = true := by
  intro l
  induction l with
  | nil => intro c h; simp [List.takeWhile] at h
  | cons d ds ih =>
    intro c h
    by_cases hd : p d
    · simp only [List.takeWhile_cons, hd, if_true, List.mem_cons] at h
      rcases h with h | h
      · subst h; exact hd
      · exact ih c h
    · simp [List.takeWhile_cons, hd] at h

theorem matchPat_sound (litL rtail s r : Str) (h : matchPat litL rtail s = some r) :
    ∃ m, PatMark litL rtail m ∧ s = m ++ r := by
  unfold matchPat at h
  cases hdl : dropLit litL s with
  | none => rw [hdl] at h; exact absurd h (by simp)
  | some r1 =>
    rw [hdl] at h
    simp only at h
    by_cases he : (r1.takeWhile Char.isDigit).isEmpty
    · rw [if_pos he] at h; exact absurd h (by simp)
    · rw [if_neg he] at h
      have hs : s = litL ++ r1 := dropLit_sound _ _ _ hdl
      have hr : r1.dropWhile Char.isDigit = (':' :: rtail) ++ r := dropLit_sound _ _ _ h
      refine ⟨litL ++ r1.takeWhile Char.isDigit ++ ':' :: rtail, ?_, ?_⟩
      · exact ⟨r1.takeWhile Char.isDigit,
          by simpa [List.isEmpty_iff] using he,
          fun c hc => mem_takeWhile_pred _ _ c hc, by simp⟩
      · rw [hs]
        conv_lhs => rw [← List.takeWhile_append_dropWhile (p := Char.isDigit) (l := r1)]
        rw [hr]
        simp

theorem matchPat_complete (litL rtail ds b : Str)
    (h1 : ds ≠ []) (h2 : ∀ c ∈ ds, c.isDigit) :
    matchPat litL rtail ((litL ++ ds ++ ':' :: rtail) ++ b) = some b := by
  have harr : (litL ++ ds ++ ':' :: rtail) ++ b = litL ++ (ds ++ ':' :: (rtail ++ b)) := by
    simp
  rw [harr]
  unfold matchPat
  rw [dropLit_self]
  simp only
  have htw : (ds ++ ':' :: (rtail ++ b)).takeWhile Char.isDigit = ds := by
    rw [takeWhile_app_all _ _ _ h2]
    simp [List.takeWhile_cons]
  have hdw : (ds ++ ':' :: (rtail ++ b)).dropWhile Char.isDigit = ':' :: (rtail ++ b) := by
    rw [dropWhile_app_all _ _ _ h2]
    simp [List.dropWhile_cons]
  rw [htw, hdw]
  rw [if_neg (by simpa [List.isEmpty_iff] using h1)]
  have : (':' :: rtail) ++ b = ':' :: (rtail ++ b) := by simp
  rw [← this, dropLit_self]

theorem hasMatchFrom_here (f : Str → Option Str) (s : Str)
    (hne : s ≠ []) (h : (f s).isSome = true) : hasMatchFrom f s = true := by
  match s with
  | [] => exact absurd rfl hne
  | c :: cs => simp [hasMatchFrom, h]

theorem hasMatchFrom_append_right (f : Str → Option Str) :
    ∀ (a s : Str), hasMatchFrom f s = true → hasMatchFrom f (a ++ s) = true := by
  intro a
  induction a with
  | nil => intro s h; simpa using h
  | cons c cs ih =>
    intro s h
    simp only [List.cons_append, hasMatchFrom, Bool.or_eq_true]
    exact Or.inr (ih s h)

theorem hasMatchFrom_sound (f : Str → Option Str) :
    ∀ s : Str, hasMatchFrom f s = true → ∃ a t, s = a ++ t ∧ (f t).isSome = true := by
  intro s
  induction s with
  | nil => intro h; simp [hasMatchFrom] at h
  | cons c cs ih =>
    intro h
    simp only [hasMatchFrom, Bool.or_eq_true] at h
    rcases h with h | h
    · exact ⟨[], c :: cs, rfl, h⟩
    · obtain ⟨a, t, heq, hf⟩ := ih h
      exact ⟨c :: a, t, by simp [heq], hf⟩

theorem PatMark_ne_nil (litL rtail m : Str) (h : PatMark litL rtail m) : m ≠ [] := by
  obtain ⟨ds, _, _, hm⟩ := h
  subst hm
  intro hcontra
  have := congrArg List.length hcontra
  simp at this

theorem PatMark_no_nl (litL rtail m : Str)
    (hL : '\n' ∉ litL) (hR : '\n' ∉ rtail) (h : PatMark litL rtail m) : '\n' ∉ m := by
  obtain ⟨ds, _, hds, hm⟩ := h
  subst hm
  intro hmem
  simp only [List.mem_append, List.mem_cons] at hmem
  rcases hmem with (h1 | h2) | h3
  · exact hL h1
  · have := hds _ h2
    simp [Char.isDigit] at this
  · rcases h3 with h3 | h3
    · exact absurd h3.symm (by decide)
    · exact hR h3

theorem PlainMark_infix_of_scan (s : Str) (h : hasPlainFrom s = true) :
    ∃ m, PlainMark m ∧ m <:+: s := by
  obtain ⟨a, t, heq, hf⟩ := hasMatchFrom_sound matchPlain s h
  obtain ⟨r, hr⟩ := Option.isSome_iff_exists.mp hf
  obtain ⟨m, hmark, hteq⟩ := matchPat_sound _ _ _ _ hr
  exact ⟨m, hmark, ⟨a, r, by rw [heq, hteq]; simp⟩⟩

theorem BoldMark_infix_of_scan (s : Str) (h : hasBoldFrom s = true) :
    ∃ m, BoldMark m ∧ m <:+: s := by
  obtain ⟨a, t, heq, hf⟩ := hasMatchFrom_sound matchBold s h
  obtain ⟨r, hr⟩ := Option.isSome_iff_exists.mp hf
  obtain ⟨m, hmark, hteq⟩ := matchPat_sound _ _ _ _ hr
  exact ⟨m, hmark, ⟨a, r, by rw [heq, hteq]; simp⟩⟩

theorem scan_of_PlainMark_present (s m : Str) (hm : PlainMark m) (hinf : m <:+: s) :
    hasPlainFrom s = true := by
  obtain ⟨a, b, hab⟩ := hinf
  obtain ⟨ds, h1, h2, hmeq⟩ := hm
  have hcomp : matchPlain (m ++ b) = some b := by
    rw [hmeq]
    exact matchPat_complete _ _ _ _ h1 h2
  have hne : m ++ b ≠ [] := by
    intro hc
    exact PatMark_ne_nil _ _ m ⟨ds, h1, h2, hmeq⟩ (List.append_eq_nil.mp hc).1
  have hhere : hasMatchFrom matchPlain (m ++ b) = true :=
    hasMatchFrom_here _ _ hne (by simp [hcomp])
  have hfin := hasMatchFrom_append_right matchPlain a (m ++ b) hhere
  have hassoc : a ++ (m ++ b) = s := by rw [← hab]; simp
  rw [hassoc] at hfin
  exact hfin

theorem scan_of_BoldMark_present (s m : Str) (hm : BoldMark m) (hinf : m <:+: s) :
    hasBoldFrom s = true := by
  obtain ⟨a, b, hab⟩ := hinf
  obtain ⟨ds, h1, h2, hmeq⟩ := hm
  have hcomp : matchBold (m ++ b) = some b := by
    rw [hmeq]
    exact matchPat_complete _ _ _ _ h1 h2
  have hne : m ++ b ≠ [] := by
    intro hc
    exact PatMark_ne_nil _ _ m ⟨ds, h1, h2, hmeq⟩ (List.append_eq_nil.mp hc).1
  have hhere : hasMatchFrom matchBold (m ++ b) = true :=
    hasMatchFrom_here _ _ hne (by simp [hcomp])
  have hfin := hasMatchFrom_append_right matchBold a (m ++ b) hhere
  have hassoc : a ++ (m ++ b) = s := by rw [← hab]; simp
  rw [hassoc] at hfin
  exact hfin

theorem HasMark_of_scan (s : Str) (h : hasMarkerB s = true) : HasMark s := by
  unfold hasMarkerB at h
  rcases Bool.or_eq_true _ _ |>.mp h with h | h
  · obtain ⟨m, hm, hinf⟩ := BoldMark_infix_of_scan s h
    exact ⟨m, Or.inr hm, hinf⟩
  · obtain ⟨m, hm, hinf⟩ := PlainMark_infix_of_scan s h
    exact ⟨m, Or.inl hm, hinf⟩

theorem scan_of_HasMark (s : Str) (h : HasMark s) : hasMarkerB s = true := by
  obtain ⟨m, hm | hm, hinf⟩ := h
  · unfold hasMarkerB
    rw [scan_of_PlainMark_present s m hm hinf]
    simp
  · unfold hasMarkerB
    rw [scan_of_BoldMark_present s m hm hinf]
    simp

theorem stripWith_no_match (f : Str → Option Str) :
    ∀ (fuel : Nat) (s : Str), hasMatchFrom f s = false → stripWith f fuel s = s := by
  intro fuel
  induction fuel with
  | zero =>
    intro s _
    cases s <;> rfl
  | succ n ih =>
    intro s h
    cases s with
    | nil => rfl
    | cons c cs =>
      simp only [hasMatchFrom, Bool.or_eq_false_iff] at h
      have hnone : f (c :: cs) = none := by
        cases hf : f (c :: cs) with
        | none => rfl
        | some r => rw [hf] at h; simp at h
      simp only [stripWith, hnone]
      rw [ih cs h.2]

theorem stripBold_id (s : Str) (h : hasBoldFrom s = false) : stripBold s = s :=
  stripWith_no_match matchBold s.length s h

theorem stripPlain_id (s : Str) (h : hasPlainFrom s = false) : stripPlain s = s :=
  stripWith_no_match matchPlain s.length s h

theorem front_of_no_sep (sep : Char) :
    ∀ (m a b q : Str), m ++ q = a ++ sep :: b → sep ∉ m → m <+: a := by
  intro m
  induction m with
  | nil => intro a b q _ _; exact List.nil_prefix
  | cons c m' ih =>
    intro a b q h hn
    match a with
    | [] =>
      have hc : c = sep := (by simpa using h : c = sep ∧ m' ++ q = b).1
      exact absurd (by simp [hc] : sep ∈ c :: m') hn
    | d :: a' =>
      have hcd : c = d ∧ m' ++ q = a' ++ sep :: b := by simpa using h
      obtain ⟨t, ht⟩ := ih a' b q hcd.2 (fun hm => hn (by simp [hm]))
      exact ⟨t, by simp [← ht, hcd.1]⟩

theorem infix_of_append_cons (sep : Char) :
    ∀ (a b m : Str), m <:+: a ++ sep :: b → sep ∉ m → m <:+: a ∨ m <:+: b := by
  intro a
  induction a with
  | nil =>
    intro b m hinf hn
    obtain ⟨p, q, hpq⟩ := hinf
    match p with
    | [] =>
      match m with
      | [] => exact Or.inl List.nil_infix
      | c :: m' =>
        have hc : c = sep := (by simpa using hpq : c = sep ∧ m' ++ q = b).1
        exact absurd (by simp [hc] : sep ∈ c :: m') hn
    | x :: p' =>
      have h2 : x = sep ∧ p' ++ (m ++ q) = b := by simpa using hpq
      have h3 : p' ++ m ++ q = b := by rw [List.append_assoc]; exact h2.2
      exact Or.inr ⟨p', q, h3⟩
  | cons d a' ih =>
    intro b m hinf hn
    obtain ⟨p, q, hpq⟩ := hinf
    match p with
    | [] =>
      have h2 : m ++ q = (d :: a') ++ sep :: b := by simpa using hpq
      exact Or.inl (front_of_no_sep sep m (d :: a') b q h2 hn).isInfix
    | x :: p' =>
      have h2 : x = d ∧ p' ++ (m ++ q) = a' ++ sep :: b := by simpa using hpq
      have h3 : p' ++ m ++ q = a' ++ sep :: b := by rw [List.append_assoc]; exact h2.2
      rcases ih b m ⟨p', q, h3⟩ hn with h | h
      · exact Or.inl (h.trans (List.infix_cons (List.infix_refl a')))
      · exact Or.inr h

theorem infix_joinBlank :
    ∀ (L : List Str) (m : Str), '\n' ∉ m → m <:+: joinBlank L →
      m = [] ∨ ∃ l ∈ L, m <:+: l := by
  intro L
  induction L with
  | nil =>
    intro m _ hinf
    exact Or.inl (List.eq_nil_of_infix_nil hinf)
  | cons a rest ih =>
    match rest with
    | [] =>
      intro m _ hinf
      exact Or.inr ⟨a, by simp, by simpa [joinBlank] using hinf⟩
    | b :: t =>
      intro m hn hinf
      have hj : joinBlank (a :: b :: t) = a ++ '\n' :: ('\n' :: joinBlank (b :: t)) := rfl
      rw [hj] at hinf
      rcases infix_of_append_cons '\n' a _ m hinf hn with h | h
      · exact Or.inr ⟨a, by simp, h⟩
      · rcases infix_of_append_cons '\n' [] _ m (by simpa using h) hn with h2 | h2
        · exact Or.inl (List.eq_nil_of_infix_nil h2)
        · rcases ih m hn h2 with h3 | ⟨l, hl, h4⟩
          · exact Or.inl h3
          · exact Or.inr ⟨l, by simp [hl], h4⟩

theorem splitNl_ne_nil : ∀ s : Str, splitNl s ≠ [] := by
  intro s
  cases s with
  | nil => simp [splitNl]
  | cons c cs =>
    unfold splitNl
    by_cases hc : c = '\n'
    · simp [hc]
    · rw [if_neg hc]
      cases hsp : splitNl cs <;> simp

theorem splitNl_structure :
    ∀ s : Str, ∃ h t, splitNl s = h :: t ∧ h <+: s ∧ ∀ l ∈ t, l <:+: s := by
  intro s
  induction s with
  | nil => exact ⟨[], [], rfl, List.nil_prefix, by simp⟩
  | cons c cs ih =>
    obtain ⟨h, t, heq, hpfx, hinf⟩ := ih
    by_cases hc : c = '\n'
    · subst hc
      refine ⟨[], splitNl cs, by simp [splitNl], List.nil_prefix, ?_⟩
      intro l hl
      rw [heq] at hl
      rcases List.mem_cons.mp hl with hl | hl
      · subst hl
        exact (hpfx.isInfix).trans (List.infix_cons (List.infix_refl cs))
      · exact (hinf l hl).trans (List.infix_cons (List.infix_refl cs))
    · refine ⟨c :: h, t, by simp [splitNl, hc, heq], ?_, ?_⟩
      · obtain ⟨u, hu⟩ := hpfx
        exact ⟨u, by simp [← hu]⟩
      · intro l hl
        exact (hinf l hl).trans (List.infix_cons (List.infix_refl cs))

theorem mem_splitNl_within (s l : Str) (h : l ∈ splitNl s) : l <:+: s := by
  obtain ⟨hd, t, heq, hpfx, hinf⟩ := splitNl_structure s
  rw [heq] at h
  rcases List.mem_cons.mp h with h | h
  · subst h; exact hpfx.isInfix
  · exact hinf l h

theorem splitNl_no_nl : ∀ (s : Str) (l : Str), l ∈ splitNl s → '\n' ∉ l := by
  intro s
  induction s with
  | nil =>
    intro l hl
    simp [splitNl] at hl
    simp [hl]
  | cons c cs ih =>
    intro l hl
    unfold splitNl at hl
    by_cases hc : c = '\n'
    · rw [if_pos hc] at hl
      rcases List.mem_cons.mp hl with hl | hl
      · simp [hl]
      · exact ih l hl
    · rw [if_neg hc] at hl
      cases hsp : splitNl cs with
      | nil => exact absurd hsp (splitNl_ne_nil cs)
      | cons h t =>
        rw [hsp] at hl
        rcases List.mem_cons.mp hl with hl | hl
        · subst hl
          intro hmem
          rcases List.mem_cons.mp hmem with hm | hm
          · exact hc hm.symm
          · exact ih h (by rw [hsp]; exact List.mem_cons_self _ _) hm
        · exact ih l (by rw [hsp]; exact List.mem_cons_of_mem _ hl)

theorem dropWhile_idem (p : Char → Bool) :
    ∀ l : Str, (l.dropWhile p).dropWhile p = l.dropWhile p := by
  intro l
  induction l with
  | nil => rfl
  | cons c cs ih =>
    by_cases hc : p c
    · simp [List.dropWhile_cons, hc, ih]
    · simp [List.dropWhile_cons, hc]

theorem trimEnd_pfx (l : Str) : trimEnd l <+: l := by
  unfold trimEnd
  have h : l.reverse.dropWhile isJsWS <:+ l.reverse := List.dropWhile_suffix _
  obtain ⟨u, hu⟩ := h
  refine ⟨u.reverse, ?_⟩
  have := congrArg List.reverse hu
  simpa using this

theorem trim_within (l : Str) : trim l <:+: l := by
  unfold trim
  exact (trimEnd_pfx _).isInfix.trans (List.dropWhile_suffix _).isInfix

theorem dropWhile_of_pfx (p : Char → Bool) (l m : Str)
    (hl : l.dropWhile p = l) (hm : m <+: l) : m.dropWhile p = m := by
  match m with
  | [] => rfl
  | c :: m' =>
    obtain ⟨t, ht⟩ := hm
    have hc : p c = false := by
      by_contra hcontra
      have hc' : p c = true := by revert hcontra; cases p c <;> simp
      have : l.dropWhile p = (m' ++ t).dropWhile p := by
        rw [← ht]
        simp [List.dropWhile_cons, hc']
      have hlen : l.length ≤ (m' ++ t).length := by
        rw [hl] at this
        calc l.length = ((m' ++ t).dropWhile p).length := by rw [← this]
          _ ≤ (m' ++ t).length := (List.dropWhile_sublist _).length_le
      rw [← ht] at hlen
      simp at hlen
    simp [List.dropWhile_cons, hc]

theorem trimEnd_idem (l : Str) : trimEnd (trimEnd l) = trimEnd l := by
  unfold trimEnd
  rw [List.reverse_reverse, dropWhile_idem]

theorem trim_idem (l : Str) : trim (trim l) = trim l := by
  have hu : (l.dropWhile isJsWS).dropWhile isJsWS = l.dropWhile isJsWS := dropWhile_idem _ _
  have hpfx : trimEnd (l.dropWhile isJsWS) <+: l.dropWhile isJsWS := trimEnd_pfx _
  show trim (trimEnd (l.dropWhile isJsWS)) = trimEnd (l.dropWhile isJsWS)
  unfold trim
  rw [dropWhile_of_pfx isJsWS _ _ hu hpfx, trimEnd_idem]

theorem splitNl_single : ∀ a : Str, '\n' ∉ a → splitNl a = [a] := by
  intro a
  induction a with
  | nil => intro _; rfl
  | cons c cs ih =>
    intro h
    have hc : ¬(c = '\n') := fun hc => h (by simp [hc])
    have hcs : '\n' ∉ cs := fun hm => h (by simp [hm])
    simp [splitNl, hc, ih hcs]

theorem splitNl_append_nl :
    ∀ (a t : Str), '\n' ∉ a → splitNl (a ++ '\n' :: t) = a :: splitNl t := by
  intro a
  induction a with
  | nil => intro t _; simp [splitNl]
  | cons c a' ih =>
    intro t h
    have hc : ¬(c = '\n') := fun hc => h (by simp [hc])
    have ha : '\n' ∉ a' := fun hm => h (by simp [hm])
    simp [splitNl, hc, ih t ha]

theorem splitNl_joinBlank :
    ∀ L : List Str, L ≠ [] → (∀ l ∈ L, '\n' ∉ l) → splitNl (joinBlank L) = interleave L := by
  intro L
  induction L with
  | nil => intro h _; exact absurd rfl h
  | cons a rest ih =>
    match rest with
    | [] =>
      intro _ hnl
      show splitNl a = [a]
      exact splitNl_single a (hnl a (by simp))
    | b :: t =>
      intro _ hnl
      have hj : joinBlank (a :: b :: t) = a ++ '\n' :: ('\n' :: joinBlank (b :: t)) := rfl
      rw [hj, splitNl_append_nl a _ (hnl a (by simp))]
      have h2 : splitNl ('\n' :: joinBlank (b :: t)) = [] :: splitNl (joinBlank (b :: t)) := by
        simp [splitNl]
      rw [h2, ih (by simp) (fun l hl => hnl l (by simp [hl]))]
      rfl

theorem map_trim_interleave :
    ∀ L : List Str, (∀ s ∈ L, trim s = s) → (interleave L).map trim = interleave L := by
  intro L
  induction L with
  | nil => intro _; rfl
  | cons a rest ih =>
    match rest with
    | [] =>
      intro h
      show [trim a] = [a]
      rw [h a (by simp)]
    | b :: t =>
      intro h
      show trim a :: trim [] :: (interleave (b :: t)).map trim = a :: [] :: interleave (b :: t)
      rw [h a (by simp), ih (fun s hs => h s (by simp [hs]))]
      rfl

theorem filter_interleave :
    ∀ L : List Str, (∀ s ∈ L, 0 < s.length) →
      (interleave L).filter (fun paragraph => decide (0 < paragraph.length)) = L := by
  intro L
  induction L with
  | nil => intro _; rfl
  | cons a rest ih =>
    match rest with
    | [] =>
      intro h
      have ha : decide (0 < a.length) = true := by simpa using h a (by simp)
      simp [interleave, List.filter, ha]
    | b :: t =>
      intro h
      have ha : decide (0 < a.length) = true := by simpa using h a (by simp)
      have hfa : List.filter (fun paragraph => decide (0 < paragraph.length))
          (a :: [] :: interleave (b :: t)) =
          a :: List.filter (fun paragraph => decide (0 < paragraph.length))
            (interleave (b :: t)) := by
        simp [List.filter_cons, ha]
      show List.filter _ (a :: [] :: interleave (b :: t)) = a :: b :: t
      rw [hfa, ih (fun s hs => h s (by simp [hs]))]

theorem reflow_segment_facts (y : Str) :
    ∀ s ∈ ((splitNl y).map trim).filter (fun paragraph => decide (0 < paragraph.length)),
      trim s = s ∧ 0 < s.length ∧ '\n' ∉ s := by
  intro s hs
  obtain ⟨hs1, hs2⟩ := List.mem_filter.mp hs
  obtain ⟨l, hl, hlt⟩ := List.mem_map.mp hs1
  subst hlt
  refine ⟨trim_idem l, by simpa using hs2, ?_⟩
  intro hnl
  exact splitNl_no_nl y l hl ((trim_within l).subset hnl)

theorem reflow_idem (y : Str) : reflow (reflow y) = reflow y := by
  have hmem := reflow_segment_facts y
  unfold reflow
  cases hs : ((splitNl y).map trim).filter (fun paragraph => decide (0 < paragraph.length)) with
  | nil => rfl
  | cons s0 rest =>
    rw [← hs]
    rw [splitNl_joinBlank _ (by rw [hs]; simp) (fun l hl => (hmem l hl).2.2)]
    rw [map_trim_interleave _ (fun l hl => (hmem l hl).1)]
    rw [filter_interleave _ (fun l hl => (hmem l hl).2.1)]

theorem reflow_no_marker (y : Str) (h : hasMarkerB y = false) :
    hasMarkerB (reflow y) = false := by
  by_contra hne
  have htrue : hasMarkerB (reflow y) = true := by
    revert hne
    cases hasMarkerB (reflow y) <;> simp
  obtain ⟨m, hkind, hinf⟩ := HasMark_of_scan _ htrue
  have hmne : m ≠ [] := by
    rcases hkind with hk | hk
    · exact PatMark_ne_nil _ _ _ hk
    · exact PatMark_ne_nil _ _ _ hk
  have hmnl : '\n' ∉ m := by
    rcases hkind with hk | hk
    · exact PatMark_no_nl _ _ _ (by decide) (by decide) hk
    · exact PatMark_no_nl _ _ _ (by decide) (by decide) hk
  unfold reflow at hinf
  rcases infix_joinBlank _ m hmnl hinf with hnil | ⟨seg, hseg, hminf⟩
  · exact hmne hnil
  · obtain ⟨hs1, _⟩ := List.mem_filter.mp hseg
    obtain ⟨l, hl, hlt⟩ := List.mem_map.mp hs1
    have hseg_l : seg <:+: l := hlt ▸ trim_within l
    have hmy : m <:+: y := (hminf.trans hseg_l).trans (mem_splitNl_within y l hl)
    have := scan_of_HasMark y ⟨m, hkind, hmy⟩
    rw [this] at h
    simp at h

/-- C5 counterexample: the single-pass replacement does not strip an
occurrence exposed by an adjacent removal: on `"ParaParagraf 1:graf 2:"`
the formatter outputs `"Paragraf 2:"`, which still matches the pattern. -/
theorem formatSummary_counterexample :
    formatSummary "ParaParagraf 1:graf 2:".data = "Paragraf 2:".data ∧
    hasMarkerB (formatSummary "ParaParagraf 1:graf 2:".data) = true := by
  refine ⟨by decide, by decide⟩

/-- C5 amended: the formatter's output is free of both boilerplate
patterns whenever the two replacement passes leave no occurrence behind —
the later split/trim/filter/join steps never create one; occurrences
newly formed by juxtaposition of the text around a removal survive. -/
theorem formatSummary_no_marker (x : Str)
    (h : hasMarkerB (stripPlain (stripBold x)) = false) :
    hasMarkerB (formatSummary x) = false :=
  reflow_no_marker _ h

theorem formatSummary_no_marker_witness :
    hasMarkerB (stripPlain (stripBold "**Paragraf 1:** Hi there\nParagraf 2: more".data)) = false ∧
    hasMarkerB (formatSummary "**Paragraf 1:** Hi there\nParagraf 2: more".data) = false :=
  ⟨by decide, formatSummary_no_marker _ (by decide)⟩

/-- C6: on text containing no boilerplate marker, `formatSummary` is
idempotent. -/
theorem formatSummary_idem (x : Str) (h : hasMarkerB x = false) :
    formatSummary (formatSummary x) = formatSummary x := by
  have hsplit := Bool.or_eq_false_iff.mp (by simpa [hasMarkerB] using h)
  have e1 : stripBold x = x := stripBold_id x hsplit.1
  have e2 : stripPlain x = x := stripPlain_id x hsplit.2
  have hfx : formatSummary x = reflow x := by
    unfold formatSummary
    rw [e1, e2]
  have hfm : hasMarkerB (reflow x) = false := reflow_no_marker x h
  have hsplit2 := Bool.or_eq_false_iff.mp (by simpa [hasMarkerB] using hfm)
  have e3 : stripBold (reflow x) = reflow x := stripBold_id _ hsplit2.1
  have e4 : stripPlain (reflow x) = reflow x := stripPlain_id _ hsplit2.2
  calc formatSummary (formatSummary x) = formatSummary (reflow x) := by rw [hfx]
    _ = reflow (reflow x) := by unfold formatSummary; rw [e3, e4]
    _ = reflow x := reflow_idem x
    _ = formatSummary x := hfx.symm

theorem formatSummary_idem_witness :
    hasMarkerB "  Hi there \nsecond line".data = false ∧
    formatSummary (formatSummary "  Hi there \nsecond line".data) =
      formatSummary "  Hi there \nsecond line".data :=
  ⟨by decide, formatSummary_idem _ (by decide)⟩
